import Mathlib

/-!
Shallow embedding of the role-based scoring application: the leaderboard
aggregation and ranking computation (`fetchLeaderboard`), the judge score
submission path (`saveScores` and its failure-aware runner), the comment
fetch (`fetchCommentForTeam`), the score-input clamp, and the name-based
sign-in (`signIn`).  Machine integers of the source are modelled as `Int`
(score values) and `Nat` (indices, ranks, surrogate ids); fallible calls
return explicit error components.
-/

/-- A row of the `scores` table as read by the leaderboard
(`select('team_id, score')`). -/
structure ScoreRow where
  team_id : String
  score : Int
deriving DecidableEq

/-- A row of the `teams` table as read by the leaderboard (`select('id, name')`). -/
structure Team where
  id : String
  name : String
deriving DecidableEq

/-- An unranked leaderboard entry, as built by the `teams.map` step. -/
structure LeaderboardEntry where
  team_id : String
  team_name : String
  total_score : Int
deriving DecidableEq

/-- A ranked leaderboard entry, as produced by the final `map` with `rank = index + 1`. -/
structure RankedEntry where
  team_id : String
  team_name : String
  total_score : Int
  rank : Nat
deriving DecidableEq

/-- Total score of one team: filter the score rows on `team_id` and sum their
`score` field with integer addition starting from 0. -/
def totalScoreOf (scores : List ScoreRow) (teamId : String) : Int :=
  (scores.filter (fun s => s.team_id == teamId)).foldl (fun sum s => sum + s.score) 0

/-- One entry per team, in team order, each with its aggregated total. -/
def teamScoresOf (scores : List ScoreRow) (teams : List Team) : List LeaderboardEntry :=
  teams.map (fun team =>
    { team_id := team.id, team_name := team.name,
      total_score := totalScoreOf scores team.id })

/-- The order used by the sort comparator `(a, b) => b.total_score - a.total_score`:
`a` may be placed before `b` exactly when the comparator is nonpositive. -/
def byTotalDesc (a b : LeaderboardEntry) : Prop :=
  b.total_score ≤ a.total_score

instance : DecidableRel byTotalDesc :=
  fun a b => inferInstanceAs (Decidable (b.total_score ≤ a.total_score))

instance : IsTotal LeaderboardEntry byTotalDesc :=
  ⟨fun a b => le_total b.total_score a.total_score⟩

instance : IsTrans LeaderboardEntry byTotalDesc :=
  ⟨fun _ _ _ hab hbc => le_trans hbc hab⟩

/-- The final `map((entry, index) => ({...entry, rank: index + 1}))` step,
written with the running index made explicit. -/
def addRanks : Nat → List LeaderboardEntry → List RankedEntry
  | _, [] => []
  | index, entry :: rest =>
    { team_id := entry.team_id, team_name := entry.team_name,
      total_score := entry.total_score, rank := index + 1 } :: addRanks (index + 1) rest

/-- The leaderboard computation: aggregate per team, stable-sort descending by
total score, then assign 1-based positional ranks. -/
def fetchLeaderboard (scores : List ScoreRow) (teams : List Team) : List RankedEntry :=
  addRanks 0 (List.insertionSort byTotalDesc (teamScoresOf scores teams))

/-- Forget the rank of a ranked entry. -/
def RankedEntry.entry (r : RankedEntry) : LeaderboardEntry :=
  { team_id := r.team_id, team_name := r.team_name, total_score := r.total_score }

theorem addRanks_length (n : Nat) (l : List LeaderboardEntry) :
    (addRanks n l).length = l.length := by
  induction l generalizing n with
  | nil => rfl
  | cons e rest ih => simp [addRanks, ih]

theorem addRanks_map_entry (n : Nat) (l : List LeaderboardEntry) :
    (addRanks n l).map RankedEntry.entry = l := by
  induction l generalizing n with
  | nil => rfl
  | cons e rest ih => simp [addRanks, RankedEntry.entry, ih]

theorem addRanks_get (n : Nat) (l : List LeaderboardEntry) (i : Nat)
    (h : i < l.length) (h' : i < (addRanks n l).length) :
    (addRanks n l).get ⟨i, h'⟩ =
      { team_id := (l.get ⟨i, h⟩).team_id, team_name := (l.get ⟨i, h⟩).team_name,
        total_score := (l.get ⟨i, h⟩).total_score, rank := n + i + 1 } := by
  induction l generalizing n i with
  | nil => exact absurd h (by simp)
  | cons e rest ih =>
    cases i with
    | zero => simp [addRanks]
    | succ j =>
      have hj : j < rest.length := by simpa using h
      have hj' : j < (addRanks (n + 1) rest).length := by
        rw [addRanks_length]; exact hj
      have := ih (n + 1) j hj hj'
      simpa [addRanks, Nat.add_comm, Nat.add_assoc, Nat.add_left_comm] using this

theorem fetchLeaderboard_map_entry (scores : List ScoreRow) (teams : List Team) :
    (fetchLeaderboard scores teams).map RankedEntry.entry
      = List.insertionSort byTotalDesc (teamScoresOf scores teams) :=
  addRanks_map_entry 0 _

theorem totalScoreOf_eq_zero (scores : List ScoreRow) (teamId : String)
    (h : ∀ s ∈ scores, s.team_id ≠ teamId) : totalScoreOf scores teamId = 0 := by
  unfold totalScoreOf
  have hfil : scores.filter (fun s => s.team_id == teamId) = [] := by
    rw [List.filter_eq_nil_iff]
    intro s hs
    simpa using h s hs
  rw [hfil]
  rfl

/-- Claim C1: for every score set and team set whose team ids are distinct,
each team appears exactly once in the leaderboard output, its total equals the
aggregated sum of the matching score rows, and a team with no matching rows
has total 0. -/
theorem fetchLeaderboard_totals (scores : List ScoreRow) (teams : List Team)
    (hids : (teams.map Team.id).Nodup) (t : Team) (ht : t ∈ teams) :
    ((fetchLeaderboard scores teams).filter (fun e => e.team_id == t.id)).length = 1 ∧
    (∀ e ∈ fetchLeaderboard scores teams, e.team_id = t.id →
      e.total_score = totalScoreOf scores t.id) ∧
    ((∀ s ∈ scores, s.team_id ≠ t.id) → totalScoreOf scores t.id = 0) := by
  have hperm := List.perm_insertionSort byTotalDesc (teamScoresOf scores teams)
  refine ⟨?_, ?_, totalScoreOf_eq_zero scores t.id⟩
  · rw [← List.countP_eq_length_filter]
    have h1 : List.countP (fun e => e.team_id == t.id) (fetchLeaderboard scores teams)
        = List.countP (fun e => e.team_id == t.id)
            (List.insertionSort byTotalDesc (teamScoresOf scores teams)) := by
      rw [← fetchLeaderboard_map_entry scores teams, List.countP_map]
      rfl
    have h2 : List.countP (fun e => e.team_id == t.id)
          (List.insertionSort byTotalDesc (teamScoresOf scores teams))
        = List.countP (fun e => e.team_id == t.id) (teamScoresOf scores teams) :=
      hperm.countP_eq _
    have h3 : List.countP (fun e => e.team_id == t.id) (teamScoresOf scores teams)
        = List.countP (fun x => x == t.id) (teams.map Team.id) := by
      unfold teamScoresOf
      rw [List.countP_map, List.countP_map]
      rfl
    rw [h1, h2, h3, ← List.count_eq_countP]
    exact List.count_eq_one_of_mem hids (List.mem_map_of_mem Team.id ht)
  · intro e he heq
    have hmem : e.entry ∈ (fetchLeaderboard scores teams).map RankedEntry.entry :=
      List.mem_map_of_mem _ he
    rw [fetchLeaderboard_map_entry] at hmem
    have hbase : e.entry ∈ teamScoresOf scores teams := hperm.mem_iff.mp hmem
    unfold teamScoresOf at hbase
    obtain ⟨tm, _, hmk⟩ := List.mem_map.mp hbase
    have hid : tm.id = e.team_id := congrArg LeaderboardEntry.team_id hmk
    have htot : totalScoreOf scores tm.id = e.total_score :=
      congrArg LeaderboardEntry.total_score hmk
    rw [← htot, hid, heq]

/-- Claim C5: the leaderboard output is sorted non-increasing by total score:
every later entry has a total less than or equal to every earlier entry. -/
theorem fetchLeaderboard_sorted (scores : List ScoreRow) (teams : List Team) :
    (fetchLeaderboard scores teams).Pairwise
      (fun a b => b.total_score ≤ a.total_score) := by
  have hs : List.Pairwise byTotalDesc
      (List.insertionSort byTotalDesc (teamScoresOf scores teams)) :=
    List.sorted_insertionSort byTotalDesc _
  rw [← fetchLeaderboard_map_entry scores teams] at hs
  exact List.pairwise_map.mp hs

/-- Claim C6: the leaderboard has one entry per team, and each entry's rank is
its 1-based position in the output sequence, so ranks are exactly 1..n and
entries with equal totals still receive distinct consecutive ranks. -/
theorem fetchLeaderboard_ranks (scores : List ScoreRow) (teams : List Team) :
    (fetchLeaderboard scores teams).length = teams.length ∧
    ∀ (i : Nat) (h : i < (fetchLeaderboard scores teams).length),
      ((fetchLeaderboard scores teams).get ⟨i, h⟩).rank = i + 1 := by
  constructor
  · show (addRanks 0 (List.insertionSort byTotalDesc (teamScoresOf scores teams))).length = _
    rw [addRanks_length, (List.perm_insertionSort _ _).length_eq]
    simp [teamScoresOf]
  · intro i h
    have hl : i < (List.insertionSort byTotalDesc (teamScoresOf scores teams)).length := by
      have : i < (addRanks 0 (List.insertionSort byTotalDesc (teamScoresOf scores teams))).length := h
      rwa [addRanks_length] at this
    have hget := addRanks_get 0 (List.insertionSort byTotalDesc (teamScoresOf scores teams)) i hl h
    have := congrArg RankedEntry.rank hget
    simpa using this

/-- Claim C6 witness: on a concrete input the leaderboard has 2 entries and
the first entry has rank 1. -/
theorem fetchLeaderboard_ranks_witness :
    0 < (fetchLeaderboard [⟨"t1", 5⟩] [⟨"t1", "A"⟩, ⟨"t2", "B"⟩]).length ∧
    ((fetchLeaderboard [⟨"t1", 5⟩] [⟨"t1", "A"⟩, ⟨"t2", "B"⟩]).get
        ⟨0, by decide⟩).rank = 0 + 1 :=
  ⟨by decide,
    (fetchLeaderboard_ranks [⟨"t1", 5⟩] [⟨"t1", "A"⟩, ⟨"t2", "B"⟩]).2 0 (by decide)⟩

/-- Claim C1 witness: concrete instantiation on one scored and one unscored
team. -/
theorem fetchLeaderboard_totals_witness :
    ((fetchLeaderboard [⟨"t1", 5⟩, ⟨"t1", 3⟩] [⟨"t1", "A"⟩, ⟨"t2", "B"⟩]).filter
        (fun e => e.team_id == "t2")).length = 1 ∧
    (∀ e ∈ fetchLeaderboard [⟨"t1", 5⟩, ⟨"t1", 3⟩] [⟨"t1", "A"⟩, ⟨"t2", "B"⟩],
      e.team_id = "t2" → e.total_score = totalScoreOf [⟨"t1", 5⟩, ⟨"t1", 3⟩] "t2") ∧
    ((∀ s ∈ ([⟨"t1", 5⟩, ⟨"t1", 3⟩] : List ScoreRow), s.team_id ≠ "t2") →
      totalScoreOf [⟨"t1", 5⟩, ⟨"t1", 3⟩] "t2" = 0) :=
  fetchLeaderboard_totals [⟨"t1", 5⟩, ⟨"t1", 3⟩] [⟨"t1", "A"⟩, ⟨"t2", "B"⟩]
    (by decide) ⟨"t2", "B"⟩ (by decide)

/-- Claim C7: a team with no score rows appears in the leaderboard with total 0
and its rank is strictly greater than the rank of every entry with positive
total. -/
theorem fetchLeaderboard_zero_score_team (scores : List ScoreRow) (teams : List Team)
    (t : Team) (ht : t ∈ teams) (hz : ∀ s ∈ scores, s.team_id ≠ t.id) :
    ∃ e ∈ fetchLeaderboard scores teams, e.team_id = t.id ∧ e.total_score = 0 ∧
      ∀ e' ∈ fetchLeaderboard scores teams, 0 < e'.total_score → e'.rank < e.rank := by
  have htot : totalScoreOf scores t.id = 0 := totalScoreOf_eq_zero scores t.id hz
  unfold fetchLeaderboard
  have hbmem : (⟨t.id, t.name, totalScoreOf scores t.id⟩ : LeaderboardEntry)
      ∈ teamScoresOf scores teams := by
    unfold teamScoresOf
    exact List.mem_map_of_mem _ ht
  have hsmem : (⟨t.id, t.name, totalScoreOf scores t.id⟩ : LeaderboardEntry)
      ∈ List.insertionSort byTotalDesc (teamScoresOf scores teams) :=
    (List.perm_insertionSort byTotalDesc (teamScoresOf scores teams)).mem_iff.mpr hbmem
  obtain ⟨⟨k, hk⟩, hget⟩ := List.get_of_mem hsmem
  have hk' : k < (addRanks 0 (List.insertionSort byTotalDesc (teamScoresOf scores teams))).length := by
    rw [addRanks_length]; exact hk
  have hsorted : List.Pairwise byTotalDesc
      (List.insertionSort byTotalDesc (teamScoresOf scores teams)) :=
    List.sorted_insertionSort byTotalDesc _
  have hgetE := addRanks_get 0 (List.insertionSort byTotalDesc (teamScoresOf scores teams)) k hk hk'
  refine ⟨(addRanks 0 (List.insertionSort byTotalDesc (teamScoresOf scores teams))).get ⟨k, hk'⟩,
    List.get_mem _ _ _, ?_, ?_, ?_⟩
  · rw [hgetE, hget]
  · rw [hgetE, hget]
    exact htot
  · intro e' he' hpos
    obtain ⟨⟨j, hj'⟩, hj⟩ := List.get_of_mem he'
    have hjs : j < (List.insertionSort byTotalDesc (teamScoresOf scores teams)).length := by
      rw [addRanks_length] at hj'; exact hj'
    have hgetJ := addRanks_get 0 (List.insertionSort byTotalDesc (teamScoresOf scores teams)) j hjs hj'
    subst hj
    have htotJ : ((addRanks 0 (List.insertionSort byTotalDesc (teamScoresOf scores teams))).get
          ⟨j, hj'⟩).total_score
        = ((List.insertionSort byTotalDesc (teamScoresOf scores teams)).get ⟨j, hjs⟩).total_score :=
      congrArg RankedEntry.total_score hgetJ
    have hrankJ : ((addRanks 0 (List.insertionSort byTotalDesc (teamScoresOf scores teams))).get
          ⟨j, hj'⟩).rank = 0 + j + 1 :=
      congrArg RankedEntry.rank hgetJ
    have hrankK : ((addRanks 0 (List.insertionSort byTotalDesc (teamScoresOf scores teams))).get
          ⟨k, hk'⟩).rank = 0 + k + 1 :=
      congrArg RankedEntry.rank hgetE
    rw [hrankJ, hrankK]
    rw [htotJ] at hpos
    have hjk : j < k := by
      rcases Nat.lt_trichotomy j k with h1 | h1 | h1
      · exact h1
      · exfalso
        have hfe : (⟨j, hjs⟩ : Fin (List.insertionSort byTotalDesc (teamScoresOf scores teams)).length)
            = ⟨k, hk⟩ := by
          simpa using h1
        rw [hfe, hget] at hpos
        have h2 : (0 : Int) < totalScoreOf scores t.id := hpos
        rw [htot] at h2
        exact absurd h2 (lt_irrefl 0)
      · exfalso
        have hpw := List.pairwise_iff_get.mp hsorted ⟨k, hk⟩ ⟨j, hjs⟩ h1
        have hle : ((List.insertionSort byTotalDesc (teamScoresOf scores teams)).get ⟨j, hjs⟩).total_score
            ≤ ((List.insertionSort byTotalDesc (teamScoresOf scores teams)).get ⟨k, hk⟩).total_score := hpw
        rw [hget] at hle
        have h3 : ((List.insertionSort byTotalDesc (teamScoresOf scores teams)).get
              ⟨j, hjs⟩).total_score ≤ totalScoreOf scores t.id := hle
        rw [htot] at h3
        omega
    omega
/-- Claim C7 witness: on a concrete input the unscored team is present with
total 0 and ranks below the scored team. -/
theorem fetchLeaderboard_zero_score_team_witness :
    ∃ e ∈ fetchLeaderboard [⟨"t1", 5⟩] [⟨"t1", "A"⟩, ⟨"t2", "B"⟩], e.team_id = "t2" ∧
      e.total_score = 0 ∧
      ∀ e' ∈ fetchLeaderboard [⟨"t1", 5⟩] [⟨"t1", "A"⟩, ⟨"t2", "B"⟩],
        0 < e'.total_score → e'.rank < e.rank :=
  fetchLeaderboard_zero_score_team [⟨"t1", 5⟩] [⟨"t1", "A"⟩, ⟨"t2", "B"⟩]
    ⟨"t2", "B"⟩ (by decide) (by decide)

/-- A persisted row of the `scores` table, with surrogate id and timestamps
omitted (they do not affect any observable behaviour modelled here). -/
structure ScoreEntry where
  team_id : String
  judge_id : String
  category_id : String
  score : Int
deriving DecidableEq

/-- A persisted row of the `comments` table, with the surrogate id modelled as
a `Nat` generated by the store. -/
structure CommentRow where
  id : Nat
  team_id : String
  judge_id : String
  comment : String
deriving DecidableEq

/-- The relevant persisted state of the external store: the `scores` and
`comments` tables, plus the store's next fresh comment id. -/
structure DBState where
  scores : List ScoreEntry
  comments : List CommentRow
  nextCommentId : Nat
deriving DecidableEq

/-- A row of the `score_categories` table. -/
structure Category where
  id : String
  name : String
  max_score : Int
deriving DecidableEq

/-- The conflict key of the upsert: `onConflict: 'team_id,judge_id,category_id'`. -/
def sameScoreKey (a b : ScoreEntry) : Bool :=
  a.team_id == b.team_id && a.judge_id == b.judge_id && a.category_id == b.category_id

/-- The (team, judge, category) triple of a score row. -/
def ScoreEntry.key (r : ScoreEntry) : String × String × String :=
  (r.team_id, r.judge_id, r.category_id)

theorem sameScoreKey_iff {a b : ScoreEntry} :
    sameScoreKey a b = true ↔ a.key = b.key := by
  simp [sameScoreKey, ScoreEntry.key, Prod.ext_iff, and_assoc]

/-- The store's upsert on the `scores` table keyed by
(team_id, judge_id, category_id): overwrite the conflicting row's score if one
exists, insert the row otherwise. -/
def upsertScore (db : List ScoreEntry) (e : ScoreEntry) : List ScoreEntry :=
  if db.any (fun r => sameScoreKey r e) then
    db.map (fun r => if sameScoreKey r e then { r with score := e.score } else r)
  else
    db ++ [e]

/-- The rows of a scores table holding a given (team, judge, category) key. -/
def rowsForKey (db : List ScoreEntry) (k : String × String × String) : List ScoreEntry :=
  db.filter (fun r => decide (r.key = k))

theorem upsertScore_mem {db : List ScoreEntry} {e r : ScoreEntry}
    (h : r ∈ upsertScore db e) :
    (r ∈ db ∧ r.key ≠ e.key) ∨ (r.key = e.key ∧ r.score = e.score) := by
  unfold upsertScore at h
  by_cases hany : db.any (fun x => sameScoreKey x e) = true
  · rw [if_pos hany] at h
    obtain ⟨x, hx, hfx⟩ := List.mem_map.mp h
    by_cases hk : sameScoreKey x e = true
    · right
      rw [if_pos hk] at hfx
      subst hfx
      exact ⟨sameScoreKey_iff.mp hk, rfl⟩
    · left
      rw [if_neg hk] at hfx
      subst hfx
      exact ⟨hx, fun hkey => hk (sameScoreKey_iff.mpr hkey)⟩
  · rw [if_neg hany] at h
    rcases List.mem_append.mp h with h' | h'
    · left
      refine ⟨h', fun hkey => hany ?_⟩
      exact List.any_eq_true.mpr ⟨r, h', sameScoreKey_iff.mpr hkey⟩
    · right
      have : r = e := by simpa using h'
      subst this
      exact ⟨rfl, rfl⟩

theorem upsertScore_value {db : List ScoreEntry} {e : ScoreEntry} :
    ∀ r ∈ upsertScore db e, r.key = e.key → r.score = e.score := by
  intro r hr hk
  rcases upsertScore_mem hr with ⟨_, hne⟩ | ⟨_, hs⟩
  · exact absurd hk hne
  · exact hs

theorem upsertScore_rowsForKey_ne (db : List ScoreEntry) (e : ScoreEntry)
    (k : String × String × String) (hk : k ≠ e.key) :
    rowsForKey (upsertScore db e) k = rowsForKey db k := by
  unfold upsertScore rowsForKey
  by_cases hany : db.any (fun x => sameScoreKey x e) = true
  · rw [if_pos hany, List.filter_map]
    have hkeep : ∀ r : ScoreEntry,
        ((if sameScoreKey r e then { r with score := e.score } else r) : ScoreEntry).key
          = r.key := by
      intro r
      by_cases hs : sameScoreKey r e = true
      · rw [if_pos hs]
        rfl
      · rw [if_neg hs]
    have hcomp : ((fun r : ScoreEntry => decide (r.key = k))
          ∘ (fun r => if sameScoreKey r e then { r with score := e.score } else r))
        = fun r : ScoreEntry =>
            decide (((if sameScoreKey r e then { r with score := e.score } else r) : ScoreEntry).key
              = k) := rfl
    have hpred : ∀ r ∈ db,
        (decide (((if sameScoreKey r e then { r with score := e.score } else r) : ScoreEntry).key = k))
          = decide (r.key = k) := by
      intro r _
      rw [hkeep r]
    rw [hcomp, List.filter_congr hpred]
    have hid2 : ∀ r ∈ List.filter (fun r : ScoreEntry => decide (r.key = k)) db,
        ((if sameScoreKey r e then { r with score := e.score } else r) : ScoreEntry) = r := by
      intro r hr
      have hrk : r.key = k := by simpa using (List.mem_filter.mp hr).2
      have hne : sameScoreKey r e ≠ true := by
        intro hs
        exact hk (hrk ▸ sameScoreKey_iff.mp hs)
      rw [if_neg hne]
    exact (List.map_congr_left hid2).trans (List.map_id _)
  · rw [if_neg hany, List.filter_append]
    have : List.filter (fun r : ScoreEntry => decide (r.key = k)) [e] = [] := by
      simp [Ne.symm hk]
    rw [this, List.append_nil]

theorem upsertScore_exists_key (db : List ScoreEntry) (e : ScoreEntry) :
    ∃ r ∈ upsertScore db e, r.key = e.key := by
  unfold upsertScore
  by_cases hany : db.any (fun x => sameScoreKey x e) = true
  · rw [if_pos hany]
    obtain ⟨x, hx, hkx⟩ := List.any_eq_true.mp hany
    refine ⟨{ x with score := e.score }, List.mem_map.mpr ⟨x, hx, by rw [if_pos hkx]⟩, ?_⟩
    exact sameScoreKey_iff.mp hkx
  · rw [if_neg hany]
    exact ⟨e, by simp, rfl⟩

theorem upsertScore_absorb (db : List ScoreEntry) (e : ScoreEntry)
    (hex : ∃ r ∈ db, r.key = e.key)
    (hval : ∀ r ∈ db, r.key = e.key → r.score = e.score) :
    upsertScore db e = db := by
  obtain ⟨r0, hr0, hk0⟩ := hex
  unfold upsertScore
  rw [if_pos (show (db.any fun r => sameScoreKey r e) = true from
    List.any_eq_true.mpr ⟨r0, hr0, sameScoreKey_iff.mpr hk0⟩)]
  have hid : ∀ r ∈ db,
      ((if sameScoreKey r e then { r with score := e.score } else r) : ScoreEntry) = r := by
    intro r hr
    by_cases hs : sameScoreKey r e = true
    · rw [if_pos hs]
      have := hval r hr (sameScoreKey_iff.mp hs)
      cases r
      simp_all
    · rw [if_neg hs]
  exact (List.map_congr_left hid).trans (List.map_id db)

theorem foldUpsert_rowsForKey_ne (es : List ScoreEntry) (k : String × String × String)
    (hks : ∀ e ∈ es, e.key ≠ k) :
    ∀ db : List ScoreEntry, rowsForKey (es.foldl upsertScore db) k = rowsForKey db k := by
  induction es with
  | nil => intro db; rfl
  | cons e es ih =>
    intro db
    rw [List.foldl_cons, ih (fun f hf => hks f (List.mem_cons_of_mem e hf)),
      upsertScore_rowsForKey_ne db e k (Ne.symm (hks e (List.mem_cons_self e es)))]

theorem foldUpsert_mem (es : List ScoreEntry) :
    ∀ (db : List ScoreEntry) (r : ScoreEntry), r ∈ es.foldl upsertScore db →
      r ∈ db ∨ ∃ e ∈ es, r.key = e.key ∧ r.score = e.score := by
  induction es with
  | nil => intro db r h; exact Or.inl h
  | cons e es ih =>
    intro db r h
    rcases ih _ r h with h' | ⟨f, hf, hkf⟩
    · rcases upsertScore_mem h' with ⟨hdb, _⟩ | ⟨hkr, hs⟩
      · exact Or.inl hdb
      · exact Or.inr ⟨e, List.mem_cons_self e es, hkr, hs⟩
    · exact Or.inr ⟨f, List.mem_cons_of_mem e hf, hkf⟩

theorem foldUpsert_idem (es : List ScoreEntry) (hnd : (es.map ScoreEntry.key).Nodup) :
    ∀ db : List ScoreEntry,
      es.foldl upsertScore (es.foldl upsertScore db) = es.foldl upsertScore db := by
  induction es with
  | nil => intro db; rfl
  | cons e es ih =>
    intro db
    have hnd' : (es.map ScoreEntry.key).Nodup := (List.nodup_cons.mp (by simpa using hnd)).2
    have hknot : e.key ∉ es.map ScoreEntry.key := (List.nodup_cons.mp (by simpa using hnd)).1
    have hks : ∀ f ∈ es, f.key ≠ e.key := by
      intro f hf heq
      exact hknot (heq ▸ List.mem_map_of_mem ScoreEntry.key hf)
    rw [List.foldl_cons, List.foldl_cons]
    have habs : upsertScore (es.foldl upsertScore (upsertScore db e)) e
        = es.foldl upsertScore (upsertScore db e) := by
      apply upsertScore_absorb
      · obtain ⟨r, hr, hrk⟩ := upsertScore_exists_key db e
        have hmemK : r ∈ rowsForKey (upsertScore db e) e.key :=
          List.mem_filter.mpr ⟨hr, by simp [hrk]⟩
        have hrows := foldUpsert_rowsForKey_ne es e.key hks (upsertScore db e)
        rw [← hrows] at hmemK
        exact ⟨r, (List.mem_filter.mp hmemK).1, hrk⟩
      · intro r hr hkr
        have hmemK : r ∈ rowsForKey (es.foldl upsertScore (upsertScore db e)) e.key :=
          List.mem_filter.mpr ⟨hr, by simp [hkr]⟩
        rw [foldUpsert_rowsForKey_ne es e.key hks (upsertScore db e)] at hmemK
        obtain ⟨hr1, hk1⟩ := List.mem_filter.mp hmemK
        exact upsertScore_value r hr1 (by simpa using hk1)
    rw [habs]
    exact ih hnd' (upsertScore db e)

theorem upsertScore_keys_nodup (db : List ScoreEntry) (e : ScoreEntry)
    (h : (db.map ScoreEntry.key).Nodup) :
    ((upsertScore db e).map ScoreEntry.key).Nodup := by
  unfold upsertScore
  by_cases hany : db.any (fun x => sameScoreKey x e) = true
  · rw [if_pos hany, List.map_map]
    have hfun : ∀ r ∈ db,
        (ScoreEntry.key ∘ fun r =>
          if sameScoreKey r e then { r with score := e.score } else r) r
          = ScoreEntry.key r := by
      intro r _
      show ((if sameScoreKey r e then { r with score := e.score } else r) : ScoreEntry).key = r.key
      by_cases hs : sameScoreKey r e = true
      · rw [if_pos hs]
        rfl
      · rw [if_neg hs]
    rw [List.map_congr_left hfun]
    exact h
  · rw [if_neg hany, List.map_append]
    rw [List.nodup_append]
    refine ⟨h, List.nodup_singleton _, ?_⟩
    intro k hk1 hk2
    have hke : k = e.key := by simpa using hk2
    subst hke
    obtain ⟨r, hr, hrk⟩ := List.mem_map.mp hk1
    exact hany (List.any_eq_true.mpr ⟨r, hr, sameScoreKey_iff.mpr hrk⟩)

theorem foldUpsert_keys_nodup (es : List ScoreEntry) :
    ∀ db : List ScoreEntry, (db.map ScoreEntry.key).Nodup →
      ((es.foldl upsertScore db).map ScoreEntry.key).Nodup := by
  induction es with
  | nil => intro db h; exact h
  | cons e es ih =>
    intro db h
    rw [List.foldl_cons]
    exact ih _ (upsertScore_keys_nodup db e h)

/-- The single store writes issued by `saveScores`: a score upsert, a comment
update by row id, or a comment insert. -/
inductive WriteOp where
  | upsert (e : ScoreEntry)
  | commentUpdate (id : Nat) (body : String)
  | commentInsert (team_id : String) (judge_id : String) (body : String)
deriving DecidableEq

/-- Effect of one successful write on the persisted state. -/
def applyWrite (st : DBState) : WriteOp → DBState
  | WriteOp.upsert e => { st with scores := upsertScore st.scores e }
  | WriteOp.commentUpdate cid body =>
      { st with comments :=
          st.comments.map (fun c => if c.id == cid then { c with comment := body } else c) }
  | WriteOp.commentInsert tid jid body =>
      { st with
        comments := st.comments
          ++ [{ id := st.nextCommentId, team_id := tid, judge_id := jid, comment := body }],
        nextCommentId := st.nextCommentId + 1 }

/-- The `comment.trim()` call of the source: strip leading and trailing
whitespace. -/
def jsTrim (s : String) : String :=
  String.mk (((s.toList.dropWhile Char.isWhitespace).reverse.dropWhile Char.isWhitespace).reverse)

/-- The category loop of `saveScores`: for each category, in category order, if
the scores map has a value for it (`score !== undefined`), upsert a row for
(selectedTeam, judge, category) with that value. -/
def scoreWrites (teamId judgeId : String) (categories : List Category)
    (scoresMap : List (String × Int)) : List ScoreEntry :=
  categories.filterMap (fun category =>
    (scoresMap.lookup category.id).map (fun v =>
      { team_id := teamId, judge_id := judgeId, category_id := category.id, score := v }))

/-- The comment branch of `saveScores`: nothing when the trimmed comment is
empty; otherwise update the known existing comment row in place, or insert a
new row when none is known. -/
def commentWrites (teamId judgeId : String) (comment : String)
    (existingComment : Option CommentRow) : List WriteOp :=
  if jsTrim comment = "" then []
  else
    match existingComment with
    | some existing => [WriteOp.commentUpdate existing.id (jsTrim comment)]
    | none => [WriteOp.commentInsert teamId judgeId (jsTrim comment)]

/-- The full write sequence of one `saveScores` call, in issue order. -/
def plannedWrites (teamId judgeId : String) (categories : List Category)
    (scoresMap : List (String × Int)) (comment : String)
    (existingComment : Option CommentRow) : List WriteOp :=
  (scoreWrites teamId judgeId categories scoresMap).map WriteOp.upsert
    ++ commentWrites teamId judgeId comment existingComment

/-- `saveScores` when every write succeeds: apply the planned writes in order. -/
def saveScores (st : DBState) (teamId judgeId : String) (categories : List Category)
    (scoresMap : List (String × Int)) (comment : String)
    (existingComment : Option CommentRow) : DBState :=
  (plannedWrites teamId judgeId categories scoresMap comment existingComment).foldl applyWrite st

/-- Failure-aware runner for the write sequence, mirroring the
`if (error) throw error` after each call: writes are issued in order; the
first write whose store call fails (per the failure oracle, indexed by issue
position) stops the run with the error reported, leaving earlier writes
applied.  Returns (final state, writes actually issued, whether an error was
reported). -/
def runWrites (fails : Nat → Bool) : Nat → DBState → List WriteOp → DBState × List WriteOp × Bool
  | _, st, [] => (st, [], false)
  | index, st, w :: ws =>
    if fails index then (st, [w], true)
    else
      ((runWrites fails (index + 1) (applyWrite st w) ws).1,
       w :: (runWrites fails (index + 1) (applyWrite st w) ws).2.1,
       (runWrites fails (index + 1) (applyWrite st w) ws).2.2)

/-- One `saveScores` call under a failure oracle. -/
def saveScoresAttempt (fails : Nat → Bool) (st : DBState) (teamId judgeId : String)
    (categories : List Category) (scoresMap : List (String × Int)) (comment : String)
    (existingComment : Option CommentRow) : DBState × List WriteOp × Bool :=
  runWrites fails 0 st (plannedWrites teamId judgeId categories scoresMap comment existingComment)

/-- The `fetchCommentForTeam` read: `maybeSingle` over the rows of the current
(team, judge) pair — the row when exactly one matches, `none` when zero match,
and `none` after the reported error when several match. -/
def fetchCommentForTeam (st : DBState) (teamId judgeId : String) : Option CommentRow :=
  match st.comments.filter (fun c => c.team_id == teamId && c.judge_id == judgeId) with
  | [c] => some c
  | _ => none

/-- The score input's change handler: `parseInt(...) || 0` (so a non-numeric
input counts as 0) clamped by `Math.min(Math.max(0, value), category.max_score)`. -/
def scoreInputOnChange (parsed : Option Int) (maxScore : Int) : Int :=
  min (max 0 (parsed.getD 0)) maxScore

/-- Only the score upserts among the planned writes touch the `scores` table,
and they fold exactly as `upsertScore`. -/
theorem foldUpsertWrites (l : List ScoreEntry) :
    ∀ st : DBState, (l.map WriteOp.upsert).foldl applyWrite st
      = { st with scores := l.foldl upsertScore st.scores } := by
  induction l with
  | nil => intro st; rfl
  | cons e l ih =>
    intro st
    rw [List.map_cons, List.foldl_cons, ih]
    rfl

theorem saveScores_split (st : DBState) (teamId judgeId : String)
    (categories : List Category) (scoresMap : List (String × Int)) (comment : String)
    (existingComment : Option CommentRow) :
    saveScores st teamId judgeId categories scoresMap comment existingComment
      = (commentWrites teamId judgeId comment existingComment).foldl applyWrite
          { st with scores :=
              (scoreWrites teamId judgeId categories scoresMap).foldl upsertScore st.scores } := by
  unfold saveScores plannedWrites
  rw [List.foldl_append, foldUpsertWrites]

theorem commentWrites_scores (teamId judgeId : String) (comment : String)
    (existingComment : Option CommentRow) (st : DBState) :
    (((commentWrites teamId judgeId comment existingComment).foldl applyWrite st)).scores
      = st.scores := by
  unfold commentWrites
  by_cases h : jsTrim comment = ""
  · rw [if_pos h]
    rfl
  · rw [if_neg h]
    cases existingComment with
    | some existing => rfl
    | none => rfl

theorem saveScores_scores (st : DBState) (teamId judgeId : String)
    (categories : List Category) (scoresMap : List (String × Int)) (comment : String)
    (existingComment : Option CommentRow) :
    (saveScores st teamId judgeId categories scoresMap comment existingComment).scores
      = (scoreWrites teamId judgeId categories scoresMap).foldl upsertScore st.scores := by
  rw [saveScores_split, commentWrites_scores]

theorem mem_scoreWrites {teamId judgeId : String} {categories : List Category}
    {scoresMap : List (String × Int)} {e : ScoreEntry}
    (he : e ∈ scoreWrites teamId judgeId categories scoresMap) :
    ∃ c ∈ categories, ∃ v : Int, scoresMap.lookup c.id = some v ∧
      e = { team_id := teamId, judge_id := judgeId, category_id := c.id, score := v } := by
  unfold scoreWrites at he
  obtain ⟨c, hc, hsome⟩ := List.mem_filterMap.mp he
  cases hl : scoresMap.lookup c.id with
  | none =>
    rw [hl] at hsome
    simp at hsome
  | some v =>
    rw [hl] at hsome
    refine ⟨c, hc, v, hl, ?_⟩
    simpa using hsome.symm

theorem scoreWrites_keys (teamId judgeId : String) (categories : List Category)
    (scoresMap : List (String × Int)) :
    (scoreWrites teamId judgeId categories scoresMap).map ScoreEntry.key
      = (categories.filter (fun c => (scoresMap.lookup c.id).isSome)).map
          (fun c => (teamId, judgeId, c.id)) := by
  induction categories with
  | nil => rfl
  | cons c categories ih =>
    cases hl : scoresMap.lookup c.id with
    | none =>
      simp only [scoreWrites, List.filterMap_cons, hl, Option.map_none', List.filter_cons,
        Option.isSome_none, Bool.false_eq_true, if_false]
      exact ih
    | some v =>
      simp only [scoreWrites, List.filterMap_cons, hl, Option.map_some', List.filter_cons,
        Option.isSome_some, if_true, List.map_cons]
      rw [show (⟨teamId, judgeId, c.id, v⟩ : ScoreEntry).key = (teamId, judgeId, c.id) from rfl]
      exact congrArg _ ih

theorem scoreWrites_keys_nodup (teamId judgeId : String) (categories : List Category)
    (scoresMap : List (String × Int)) (h : (categories.map Category.id).Nodup) :
    ((scoreWrites teamId judgeId categories scoresMap).map ScoreEntry.key).Nodup := by
  rw [scoreWrites_keys]
  have hsub : ((categories.filter (fun c => (scoresMap.lookup c.id).isSome)).map
      Category.id).Sublist (categories.map Category.id) :=
    (List.filter_sublist categories).map Category.id
  have hnd : ((categories.filter (fun c => (scoresMap.lookup c.id).isSome)).map
      Category.id).Nodup := List.Nodup.sublist hsub h
  rw [show (fun c : Category => (teamId, judgeId, c.id))
    = (fun i : String => (teamId, judgeId, i)) ∘ Category.id from rfl, ← List.map_map]
  apply List.Nodup.map ?_ hnd
  intro a b hab
  simpa using hab

/-- Claim C4: with distinct category ids (their table's primary key) and a
duplicate-free scores table (the store's uniqueness constraint), submitting the
same payload twice leaves the scores table exactly as after one submission, and
one submission never creates a second row for any (team, judge, category)
triple. -/
theorem saveScores_idempotent (st : DBState) (teamId judgeId : String)
    (categories : List Category) (scoresMap : List (String × Int)) (comment : String)
    (existingComment : Option CommentRow)
    (hcats : (categories.map Category.id).Nodup)
    (hkeys : (st.scores.map ScoreEntry.key).Nodup) :
    (saveScores (saveScores st teamId judgeId categories scoresMap comment existingComment)
        teamId judgeId categories scoresMap comment existingComment).scores
      = (saveScores st teamId judgeId categories scoresMap comment existingComment).scores
    ∧ ((saveScores st teamId judgeId categories scoresMap comment existingComment).scores.map
        ScoreEntry.key).Nodup := by
  constructor
  · rw [saveScores_scores, saveScores_scores]
    exact foldUpsert_idem (scoreWrites teamId judgeId categories scoresMap)
      (scoreWrites_keys_nodup teamId judgeId categories scoresMap hcats) st.scores
  · rw [saveScores_scores]
    exact foldUpsert_keys_nodup (scoreWrites teamId judgeId categories scoresMap) st.scores hkeys

/-- Claim C4 witness: concrete re-submission of the same two-category payload. -/
theorem saveScores_idempotent_witness :
    (saveScores (saveScores ⟨[], [], 0⟩ "t1" "j1"
        [⟨"c1", "Innovation", 10⟩, ⟨"c2", "Design", 10⟩] [("c1", 5), ("c2", 7)] "" none)
        "t1" "j1" [⟨"c1", "Innovation", 10⟩, ⟨"c2", "Design", 10⟩]
        [("c1", 5), ("c2", 7)] "" none).scores
      = (saveScores ⟨[], [], 0⟩ "t1" "j1" [⟨"c1", "Innovation", 10⟩, ⟨"c2", "Design", 10⟩]
        [("c1", 5), ("c2", 7)] "" none).scores
    ∧ ((saveScores ⟨[], [], 0⟩ "t1" "j1" [⟨"c1", "Innovation", 10⟩, ⟨"c2", "Design", 10⟩]
        [("c1", 5), ("c2", 7)] "" none).scores.map ScoreEntry.key).Nodup :=
  saveScores_idempotent ⟨[], [], 0⟩ "t1" "j1"
    [⟨"c1", "Innovation", 10⟩, ⟨"c2", "Design", 10⟩] [("c1", 5), ("c2", 7)] "" none
    (by decide) (by decide)

/-- Claim C10: `saveScores` upserts only the categories with a provided score
value; the rows of every other (team, judge, category) key — other teams,
other judges, or categories with no value in the scores map — are exactly the
rows the store already held for that key. -/
theorem saveScores_frame (st : DBState) (teamId judgeId : String)
    (categories : List Category) (scoresMap : List (String × Int)) (comment : String)
    (existingComment : Option CommentRow) (k : String × String × String)
    (hk : ∀ c ∈ categories, (scoresMap.lookup c.id).isSome = true → k ≠ (teamId, judgeId, c.id)) :
    rowsForKey (saveScores st teamId judgeId categories scoresMap comment existingComment).scores k
      = rowsForKey st.scores k := by
  rw [saveScores_scores]
  apply foldUpsert_rowsForKey_ne
  intro e he heq
  obtain ⟨c, hc, v, hv, hev⟩ := mem_scoreWrites he
  subst hev
  exact hk c hc (by rw [hv]; rfl) (heq ▸ rfl)

/-- Claim C10 witness: a concrete submission leaves another judge's row for an
unrelated key untouched. -/
theorem saveScores_frame_witness :
    rowsForKey (saveScores ⟨[⟨"t9", "j9", "c1", 3⟩], [], 0⟩ "t1" "j1"
        [⟨"c1", "Innovation", 10⟩] [("c1", 5)] "" none).scores ("t9", "j9", "c1")
      = rowsForKey [⟨"t9", "j9", "c1", 3⟩] ("t9", "j9", "c1") :=
  saveScores_frame ⟨[⟨"t9", "j9", "c1", 3⟩], [], 0⟩ "t1" "j1"
    [⟨"c1", "Innovation", 10⟩] [("c1", 5)] "" none ("t9", "j9", "c1") (by decide)

/-- Claim C3: every value entered through the score input is clamped into
[0, max_score] by the change handler (first conjunct), and the submission
path persists exactly the scores-map values, so when the map holds only
entered values, every row `saveScores` writes or overwrites is within
[0, category.max_score] for its category — only rows the store already held
can lie outside the range. -/
theorem saveScores_entered_in_range (st : DBState) (teamId judgeId : String)
    (categories : List Category) (scoresMap : List (String × Int)) (comment : String)
    (existingComment : Option CommentRow)
    (hmax : ∀ c ∈ categories, 0 ≤ c.max_score)
    (hin : ∀ c ∈ categories, ∀ v : Int, scoresMap.lookup c.id = some v →
      ∃ parsed : Option Int, v = scoreInputOnChange parsed c.max_score) :
    (∀ (parsed : Option Int) (m : Int), 0 ≤ m →
      0 ≤ scoreInputOnChange parsed m ∧ scoreInputOnChange parsed m ≤ m) ∧
    ∀ row ∈ (saveScores st teamId judgeId categories scoresMap comment existingComment).scores,
      ∀ c ∈ categories, c.id = row.category_id →
        row ∈ st.scores ∨ (0 ≤ row.score ∧ row.score ≤ c.max_score) := by
  have hclamp : ∀ (parsed : Option Int) (m : Int), 0 ≤ m →
      0 ≤ scoreInputOnChange parsed m ∧ scoreInputOnChange parsed m ≤ m := by
    intro parsed m hm
    unfold scoreInputOnChange
    exact ⟨le_min (le_max_left 0 _) hm, min_le_right _ _⟩
  refine ⟨hclamp, ?_⟩
  intro row hrow c hc hcid
  rw [saveScores_scores] at hrow
  rcases foldUpsert_mem _ _ _ hrow with hmem | ⟨e, he, hkey, hscore⟩
  · exact Or.inl hmem
  · right
    obtain ⟨c0, _, v, hv, hev⟩ := mem_scoreWrites he
    subst hev
    have hcat : row.category_id = c0.id := by
      have := congrArg (fun p : String × String × String => p.2.2) hkey
      simpa [ScoreEntry.key] using this
    have hlook : scoresMap.lookup c.id = some v := by
      rw [hcid, hcat]
      exact hv
    obtain ⟨parsed, hval⟩ := hin c hc v hlook
    have hrange := hclamp parsed c.max_score (hmax c hc)
    have hrs : row.score = v := hscore
    rw [hrs, hval]
    exact hrange

/-- Claim C3 witness: a concrete out-of-range entry (99 against max 10) is
clamped into [0, 10] by the change handler. -/
theorem saveScores_entered_in_range_witness :
    0 ≤ scoreInputOnChange (some 99) 10 ∧ scoreInputOnChange (some 99) 10 ≤ 10 :=
  (saveScores_entered_in_range ⟨[], [], 0⟩ "t1" "j1" [⟨"c1", "Innovation", 10⟩] [] "" none
    (by decide)
    (by
      intro c hc v hv
      simp [List.lookup] at hv)).1 (some 99) 10 (by decide)

theorem runWrites_ok (fails : Nat → Bool) (ws : List WriteOp) :
    ∀ (n : Nat) (st : DBState), (∀ j, j < ws.length → fails (n + j) = false) →
      runWrites fails n st ws = (ws.foldl applyWrite st, ws, false) := by
  induction ws with
  | nil => intro n st _; rfl
  | cons w ws ih =>
    intro n st h
    have h0 : fails n = false := by simpa using h 0 (by simp)
    unfold runWrites
    rw [if_neg (by simp [h0])]
    rw [ih (n + 1) (applyWrite st w)
      (fun j hj => by
        rw [show n + 1 + j = n + (j + 1) from by omega]
        exact h (j + 1) (by simp; omega))]
    rfl

theorem runWrites_fail (fails : Nat → Bool) (ws : List WriteOp) :
    ∀ (n k : Nat) (st : DBState), k < ws.length → fails (n + k) = true →
      (∀ j, j < k → fails (n + j) = false) →
      runWrites fails n st ws = ((ws.take k).foldl applyWrite st, ws.take (k + 1), true) := by
  induction ws with
  | nil =>
    intro n k st hk
    exact absurd hk (by simp)
  | cons w ws ih =>
    intro n k st hk hfk hbefore
    cases k with
    | zero =>
      have h0 : fails n = true := by simpa using hfk
      unfold runWrites
      rw [if_pos (by simp [h0])]
      rfl
    | succ k =>
      have h0 : fails n = false := by simpa using hbefore 0 (Nat.succ_pos _)
      unfold runWrites
      rw [if_neg (by simp [h0])]
      rw [ih (n + 1) k (applyWrite st w) (by simpa using Nat.lt_of_succ_lt_succ hk)
        (by rw [show n + 1 + k = n + (k + 1) from by omega]; exact hfk)
        (fun j hj => by
          rw [show n + 1 + j = n + (j + 1) from by omega]
          exact hbefore (j + 1) (by omega))]
      rfl

/-- Claim C2 counterexample: with two planned category upserts and the first
store call failing, only one of the two planned writes is ever issued, the
error is reported, and the second upsert is not attempted — refuting "the
remaining writes are still attempted". -/
theorem saveScores_abort_counterexample :
    (saveScoresAttempt (fun i => i == 0) ⟨[], [], 0⟩ "t1" "j1"
        [⟨"c1", "Innovation", 10⟩, ⟨"c2", "Design", 10⟩]
        [("c1", 5), ("c2", 7)] "" none).2.2 = true ∧
    (saveScoresAttempt (fun i => i == 0) ⟨[], [], 0⟩ "t1" "j1"
        [⟨"c1", "Innovation", 10⟩, ⟨"c2", "Design", 10⟩]
        [("c1", 5), ("c2", 7)] "" none).2.1.length = 1 ∧
    (plannedWrites "t1" "j1" [⟨"c1", "Innovation", 10⟩, ⟨"c2", "Design", 10⟩]
        [("c1", 5), ("c2", 7)] "" none).length = 2 ∧
    (saveScoresAttempt (fun i => i == 0) ⟨[], [], 0⟩ "t1" "j1"
        [⟨"c1", "Innovation", 10⟩, ⟨"c2", "Design", 10⟩]
        [("c1", 5), ("c2", 7)] "" none).1.scores = [] := by
  refine ⟨?_, ?_, ?_, ?_⟩ <;> decide

/-- Claim C2 (amended): the writes of a submission are issued as a sequence;
when every store call succeeds they all apply, and when a call fails the
failure is reported, the writes already applied before it are kept (no
rollback), and the remaining writes are NOT attempted. -/
theorem saveScoresAttempt_spec (fails : Nat → Bool) (st : DBState) (teamId judgeId : String)
    (categories : List Category) (scoresMap : List (String × Int)) (comment : String)
    (existingComment : Option CommentRow) :
    ((∀ j, j < (plannedWrites teamId judgeId categories scoresMap comment
          existingComment).length → fails j = false) →
      saveScoresAttempt fails st teamId judgeId categories scoresMap comment existingComment
        = (saveScores st teamId judgeId categories scoresMap comment existingComment,
           plannedWrites teamId judgeId categories scoresMap comment existingComment, false)) ∧
    (∀ k, k < (plannedWrites teamId judgeId categories scoresMap comment
          existingComment).length → fails k = true → (∀ j, j < k → fails j = false) →
      saveScoresAttempt fails st teamId judgeId categories scoresMap comment existingComment
        = (((plannedWrites teamId judgeId categories scoresMap comment
              existingComment).take k).foldl applyWrite st,
           (plannedWrites teamId judgeId categories scoresMap comment
              existingComment).take (k + 1), true)) := by
  constructor
  · intro h
    unfold saveScoresAttempt
    exact runWrites_ok fails _ 0 st (fun j hj => by simpa using h j hj)
  · intro k hk hfk hbefore
    unfold saveScoresAttempt
    exact runWrites_fail fails _ 0 k st hk (by simpa using hfk)
      (fun j hj => by simpa using hbefore j hj)

/-- Claim C2 witness: with the second of two planned writes failing, the first
upsert stays applied, the third-and-later writes are never issued, and the
error is reported. -/
theorem saveScoresAttempt_spec_witness :
    saveScoresAttempt (fun i => i == 1) ⟨[], [], 0⟩ "t1" "j1"
        [⟨"c1", "Innovation", 10⟩, ⟨"c2", "Design", 10⟩] [("c1", 5), ("c2", 7)] "" none
      = (((plannedWrites "t1" "j1" [⟨"c1", "Innovation", 10⟩, ⟨"c2", "Design", 10⟩]
            [("c1", 5), ("c2", 7)] "" none).take 1).foldl applyWrite ⟨[], [], 0⟩,
         (plannedWrites "t1" "j1" [⟨"c1", "Innovation", 10⟩, ⟨"c2", "Design", 10⟩]
            [("c1", 5), ("c2", 7)] "" none).take 2, true) :=
  (saveScoresAttempt_spec (fun i => i == 1) ⟨[], [], 0⟩ "t1" "j1"
      [⟨"c1", "Innovation", 10⟩, ⟨"c2", "Design", 10⟩] [("c1", 5), ("c2", 7)] "" none).2
    1 (by decide) (by decide) (fun j hj => by
      have hj0 : j = 0 := by omega
      subst hj0
      decide)

/-- Claim C8: comment handling on submission — an empty-after-trim comment
writes nothing (existing comments are not cleared); a non-empty trimmed
comment updates the known prior row in place, or inserts a fresh row when no
prior row is known; and under the fetch protocol (the known prior comment is
the `maybeSingle` read for the pair) a store holding at most one comment row
for the (team, judge) pair still holds at most one after the submission. -/
theorem saveScores_comment_cases (st : DBState) (teamId judgeId : String)
    (categories : List Category) (scoresMap : List (String × Int)) (comment : String)
    (existingComment : Option CommentRow) :
    (jsTrim comment = "" →
      (saveScores st teamId judgeId categories scoresMap comment existingComment).comments
        = st.comments) ∧
    (∀ existing, existingComment = some existing → jsTrim comment ≠ "" →
      (saveScores st teamId judgeId categories scoresMap comment existingComment).comments
        = st.comments.map (fun c =>
            if c.id == existing.id then { c with comment := jsTrim comment } else c)) ∧
    (existingComment = none → jsTrim comment ≠ "" →
      (saveScores st teamId judgeId categories scoresMap comment existingComment).comments
        = st.comments
          ++ [{ id := st.nextCommentId, team_id := teamId, judge_id := judgeId,
                comment := jsTrim comment }]) ∧
    (existingComment = fetchCommentForTeam st teamId judgeId →
      st.comments.countP (fun c => c.team_id == teamId && c.judge_id == judgeId) ≤ 1 →
      (saveScores st teamId judgeId categories scoresMap comment
          existingComment).comments.countP
        (fun c => c.team_id == teamId && c.judge_id == judgeId) ≤ 1) := by
  have hempty : jsTrim comment = "" →
      (saveScores st teamId judgeId categories scoresMap comment existingComment).comments
        = st.comments := by
    intro h
    rw [saveScores_split]
    unfold commentWrites
    rw [if_pos h]
    rfl
  have hupd : ∀ existing, existingComment = some existing → jsTrim comment ≠ "" →
      (saveScores st teamId judgeId categories scoresMap comment existingComment).comments
        = st.comments.map (fun c =>
            if c.id == existing.id then { c with comment := jsTrim comment } else c) := by
    intro existing hex h
    rw [saveScores_split]
    unfold commentWrites
    rw [if_neg h, hex]
    rfl
  have hins : existingComment = none → jsTrim comment ≠ "" →
      (saveScores st teamId judgeId categories scoresMap comment existingComment).comments
        = st.comments
          ++ [{ id := st.nextCommentId, team_id := teamId, judge_id := judgeId,
                comment := jsTrim comment }] := by
    intro hex h
    rw [saveScores_split]
    unfold commentWrites
    rw [if_neg h, hex]
    rfl
  refine ⟨hempty, hupd, hins, ?_⟩
  intro hfetch hle
  by_cases h : jsTrim comment = ""
  · rw [hempty h]
    exact hle
  · rcases Option.eq_none_or_eq_some existingComment with hex | ⟨existing, hex⟩
    · have hf : fetchCommentForTeam st teamId judgeId = none := by
        rw [← hfetch, hex]
      rw [hins hex h, List.countP_append]
      have hnew : List.countP (fun c : CommentRow => c.team_id == teamId && c.judge_id == judgeId)
          [{ id := st.nextCommentId, team_id := teamId, judge_id := judgeId,
             comment := jsTrim comment }] = 1 := by
        simp
      rw [hnew]
      have hcount : st.comments.countP
          (fun c : CommentRow => c.team_id == teamId && c.judge_id == judgeId)
          = (st.comments.filter
              (fun c : CommentRow => c.team_id == teamId && c.judge_id == judgeId)).length :=
        List.countP_eq_length_filter _ _
      unfold fetchCommentForTeam at hf
      cases hfil : st.comments.filter
          (fun c : CommentRow => c.team_id == teamId && c.judge_id == judgeId) with
      | nil =>
        rw [hfil] at hcount
        rw [List.length_nil] at hcount
        omega
      | cons c rest =>
        cases rest with
        | nil =>
          rw [hfil] at hf
          simp at hf
        | cons c2 rest2 =>
          rw [hfil] at hcount
          rw [hcount] at hle
          simp at hle
    · rw [hupd existing hex h, List.countP_map]
      have hfun : ((fun c : CommentRow => c.team_id == teamId && c.judge_id == judgeId)
            ∘ (fun c => if c.id == existing.id then { c with comment := jsTrim comment } else c))
          = fun c : CommentRow => c.team_id == teamId && c.judge_id == judgeId := by
        funext c
        by_cases hc : (c.id == existing.id) = true
        · simp [Function.comp, hc]
        · simp [Function.comp, hc]
      rw [hfun]
      exact hle

/-- Claim C8 witness: a concrete submission with no prior comment inserts
exactly one row, keeping at most one comment for the pair. -/
theorem saveScores_comment_cases_witness :
    (saveScores ⟨[], [], 0⟩ "t1" "j1" [⟨"c1", "Innovation", 10⟩] [("c1", 5)] "nice work"
        none).comments
      = [] ++ [{ id := 0, team_id := "t1", judge_id := "j1",
                 comment := jsTrim "nice work" }] :=
  (saveScores_comment_cases ⟨[], [], 0⟩ "t1" "j1" [⟨"c1", "Innovation", 10⟩] [("c1", 5)]
    "nice work" none).2.2.1 rfl (by decide)

/-- The three identity kinds of the application. -/
inductive UserRole where
  | admin
  | judge
  | team
deriving DecidableEq

/-- The established identity (`AuthUser`), as held in the auth context state
and mirrored to local storage. -/
structure AuthUser where
  role : UserRole
  id : String
  name : String
  email : Option String
deriving DecidableEq

/-- Sign-in credentials; a missing (or empty, hence falsy) field is `none`. -/
structure Credentials where
  email : Option String
  password : Option String
  name : Option String
deriving DecidableEq

/-- A row of the `judges` table. -/
structure Judge where
  id : String
  name : String
deriving DecidableEq

/-- The error kinds surfaced by `signIn`: missing credential fields, a name
lookup that found no row, or an error reported by the external store or
identity provider. -/
inductive SignInError where
  | validation (msg : String)
  | notFound (msg : String)
  | upstream (msg : String)
deriving DecidableEq

/-- The error message the store client reports when `maybeSingle` receives
more than one row. -/
def multipleRowsMsg : String :=
  "JSON object requested, multiple (or no) rows returned"

/-- `maybeSingle` on the rows matching the query: `none` for zero rows, the
row for exactly one, and the client's error for several. -/
def maybeSingle {α : Type} (rows : List α) : Except String (Option α) :=
  match rows with
  | [] => Except.ok none
  | [r] => Except.ok (some r)
  | _ => Except.error multipleRowsMsg

/-- The `signIn` of the auth context: admin by credential exchange with the
identity provider (modelled as an oracle from email and password to either an
error or a user id and email), judge and team by exact name lookup.  Returns
the new current-user state and the reported error, if any; every failing
branch throws before the state is updated. -/
def signIn (current : Option AuthUser) (role : UserRole) (creds : Credentials)
    (judges : List Judge) (teams : List Team)
    (adminAuth : String → String → Except String (String × Option String)) :
    Option AuthUser × Option SignInError :=
  match role with
  | UserRole.admin =>
    match creds.email, creds.password with
    | some email, some password =>
      match adminAuth email password with
      | Except.error msg => (current, some (SignInError.upstream msg))
      | Except.ok (uid, uemail) =>
        (some { role := UserRole.admin, id := uid, name := "Admin", email := uemail }, none)
    | _, _ =>
      (current, some (SignInError.validation "Email and password required for admin login"))
  | UserRole.judge =>
    match creds.name with
    | none => (current, some (SignInError.validation "Name required for judge login"))
    | some n =>
      match maybeSingle (judges.filter (fun j => j.name == n)) with
      | Except.error msg => (current, some (SignInError.upstream msg))
      | Except.ok none => (current, some (SignInError.notFound "Judge not found"))
      | Except.ok (some j) =>
        (some { role := UserRole.judge, id := j.id, name := j.name, email := none }, none)
  | UserRole.team =>
    match creds.name with
    | none => (current, some (SignInError.validation "Name required for team login"))
    | some n =>
      match maybeSingle (teams.filter (fun t => t.name == n)) with
      | Except.error msg => (current, some (SignInError.upstream msg))
      | Except.ok none => (current, some (SignInError.notFound "Team not found"))
      | Except.ok (some t) =>
        (some { role := UserRole.team, id := t.id, name := t.name, email := none }, none)

/-- Claim C9 counterexample: with two judge rows sharing the looked-up name,
sign-in fails, but with the store client's multiple-rows error surfaced — not
with the "not found" error the claim asserts for the multiple-rows case. -/
theorem signIn_multiple_rows_counterexample :
    (signIn none UserRole.judge ⟨none, none, some "A"⟩
        [⟨"1", "A"⟩, ⟨"2", "A"⟩] [] (fun _ _ => Except.error "unused")).2
      = some (SignInError.upstream multipleRowsMsg) ∧
    ¬ (signIn none UserRole.judge ⟨none, none, some "A"⟩
        [⟨"1", "A"⟩, ⟨"2", "A"⟩] [] (fun _ _ => Except.error "unused")).2
      = some (SignInError.notFound "Judge not found") := by
  refine ⟨?_, ?_⟩ <;> decide

/-- Claim C9 (amended): judge and team sign-in resolve identity by exact name
lookup; a name matching zero rows fails with the "not found" error, a name
matching several rows fails with the store client's multiple-rows (upstream)
error, and every failing sign-in — of any role — leaves the current-user
state unchanged. -/
theorem signIn_spec (current : Option AuthUser) (role : UserRole) (creds : Credentials)
    (judges : List Judge) (teams : List Team)
    (adminAuth : String → String → Except String (String × Option String)) :
    ((signIn current role creds judges teams adminAuth).2.isSome = true →
      (signIn current role creds judges teams adminAuth).1 = current) ∧
    (∀ n, role = UserRole.judge → creds.name = some n →
      (judges.filter (fun j => j.name == n) = [] →
        (signIn current role creds judges teams adminAuth).2
          = some (SignInError.notFound "Judge not found")) ∧
      (2 ≤ (judges.filter (fun j => j.name == n)).length →
        (signIn current role creds judges teams adminAuth).2
          = some (SignInError.upstream multipleRowsMsg))) ∧
    (∀ n, role = UserRole.team → creds.name = some n →
      (teams.filter (fun t => t.name == n) = [] →
        (signIn current role creds judges teams adminAuth).2
          = some (SignInError.notFound "Team not found")) ∧
      (2 ≤ (teams.filter (fun t => t.name == n)).length →
        (signIn current role creds judges teams adminAuth).2
          = some (SignInError.upstream multipleRowsMsg))) := by
  obtain ⟨ce, cp, cn⟩ := creds
  refine ⟨?_, ?_, ?_⟩
  · cases role with
    | admin =>
      cases ce with
      | none => intro _; simp [signIn]
      | some email =>
        cases cp with
        | none => intro _; simp [signIn]
        | some password =>
          cases hau : adminAuth email password with
          | error msg => intro _; simp [signIn, hau]
          | ok u =>
            intro hs
            exfalso
            simp [signIn, hau] at hs
    | judge =>
      cases cn with
      | none => intro _; simp [signIn]
      | some n =>
        cases hfil : judges.filter (fun j => j.name == n) with
        | nil => intro _; simp [signIn, maybeSingle, hfil]
        | cons a rest =>
          cases rest with
          | nil =>
            intro hs
            exfalso
            simp [signIn, maybeSingle, hfil] at hs
          | cons b rest2 => intro _; simp [signIn, maybeSingle, hfil]
    | team =>
      cases cn with
      | none => intro _; simp [signIn]
      | some n =>
        cases hfil : teams.filter (fun t => t.name == n) with
        | nil => intro _; simp [signIn, maybeSingle, hfil]
        | cons a rest =>
          cases rest with
          | nil =>
            intro hs
            exfalso
            simp [signIn, maybeSingle, hfil] at hs
          | cons b rest2 => intro _; simp [signIn, maybeSingle, hfil]
  · intro n hrole hname
    subst hrole
    have hcn : cn = some n := hname
    subst hcn
    constructor
    · intro hfil0
      simp [signIn, maybeSingle, hfil0]
    · intro hlen
      cases hfil : judges.filter (fun j => j.name == n) with
      | nil =>
        rw [hfil] at hlen
        simp at hlen
      | cons a rest =>
        cases rest with
        | nil =>
          rw [hfil] at hlen
          simp at hlen
        | cons b rest2 => simp [signIn, maybeSingle, hfil]
  · intro n hrole hname
    subst hrole
    have hcn : cn = some n := hname
    subst hcn
    constructor
    · intro hfil0
      simp [signIn, maybeSingle, hfil0]
    · intro hlen
      cases hfil : teams.filter (fun t => t.name == n) with
      | nil =>
        rw [hfil] at hlen
        simp at hlen
      | cons a rest =>
        cases rest with
        | nil =>
          rw [hfil] at hlen
          simp at hlen
        | cons b rest2 => simp [signIn, maybeSingle, hfil]

/-- Claim C9 witness: a name matching no judge row fails with the "not found"
error on a concrete store. -/
theorem signIn_spec_witness :
    ([⟨"1", "A"⟩] : List Judge).filter (fun j => j.name == "B") = [] ∧
    (signIn none UserRole.judge ⟨none, none, some "B"⟩ [⟨"1", "A"⟩] []
        (fun _ _ => Except.error "unused")).2
      = some (SignInError.notFound "Judge not found") :=
  ⟨by decide,
    ((signIn_spec none UserRole.judge ⟨none, none, some "B"⟩ [⟨"1", "A"⟩] []
        (fun _ _ => Except.error "unused")).2.1 "B" rfl rfl).1 (by decide)⟩
